import Mathlib

/-! # barretenberg: SHA-256 and the `field_t` circuit handle

A shallow embedding of

* `src/barretenberg/misc_crypto/sha256/sha256.cpp` (the byte-digest function), and
* `src/barretenberg/waffle/stdlib/field/field.hpp` (the lazy affine field handle),

followed by theorems about them.

Conventions of the embedding.

* `uint8_t`, `uint32_t`, `uint64_t` and `size_t` values are natural numbers; every
  operation that can leave the range of its C++ type is followed by an explicit
  reduction (`% 2 ^ 32`, `% 2 ^ 64`, `% 256`).  `size_t` is 64 bits wide.
* `std::vector` and `std::array` are lists; a read outside the list yields `0`.
* The byte order of the host is a parameter `le : Bool` (`true`: the least
  significant byte of a word has the lowest address).  It decides how `memcpy`
  maps bytes to words and what `internal::isLittleEndian` sees.
-/

set_option linter.dupNamespace false

namespace sha256

/-! ## Machine words -/

/-- Reduction of a natural number to `uint32_t`. -/
def u32 (x : Nat) : Nat := x % 4294967296

/-- Reduction of a natural number to `uint64_t` / `size_t`. -/
def u64 (x : Nat) : Nat := x % 18446744073709551616

/-- Reduction of a natural number to `uint8_t` (`static_cast<uint8_t>`). -/
def u8 (x : Nat) : Nat := x % 256

/-- Bitwise complement of a `uint32_t` (`~x`). -/
def not32 (x : Nat) : Nat := 4294967295 - u32 x

/-- Modelled from the spec: `ror` is declared in `sha256.hpp`, which is not among the
sources; it is the 32-bit right rotation its name and its use in the SHA-256 message
schedule and compression rounds call for. -/
def ror (val shift : Nat) : Nat :=
  (val >>> (shift &&& 31)) ||| u32 (val <<< (32 - (shift &&& 31)))

/-- The compiler builtin `__builtin_bswap32`: the word whose four bytes are those of `x`
in reverse order. -/
def bswap32 (x : Nat) : Nat :=
  x % 256 * 16777216 + x / 256 % 256 * 65536 + x / 65536 % 256 * 256 + x / 16777216 % 256

/-- The four bytes a `uint32_t` object occupies in memory, lowest address first, on a
host of byte order `le`. -/
def store32 (le : Bool) (x : Nat) : List Nat :=
  if le then [x % 256, x / 256 % 256, x / 65536 % 256, x / 16777216 % 256]
  else [x / 16777216 % 256, x / 65536 % 256, x / 256 % 256, x % 256]

/-- The `uint32_t` read from four bytes in memory (lowest address first) on a host of
byte order `le`. -/
def load32 (le : Bool) (b0 b1 b2 b3 : Nat) : Nat :=
  if le then b0 + b1 * 256 + b2 * 65536 + b3 * 16777216
  else b3 + b2 * 256 + b1 * 65536 + b0 * 16777216

namespace internal

/-- Table `init_constants`: the initial chaining value (hexadecimal, as in the source). -/
def init_constants : List Nat :=
  [0x6A09E667, 0xBB67AE85, 0x3C6EF372, 0xA54FF53A,
   0x510E527F, 0x9B05688C, 0x1F83D9AB, 0x5BE0CD19]

/-- Table `round_constants`: the 64 round constants (hexadecimal, as in the source). -/
def round_constants : List Nat :=
  [0x428A2F98, 0x71374491, 0xB5C0FBCF, 0xE9B5DBA5, 0x3956C25B, 0x59F111F1, 0x923F82A4, 0xAB1C5ED5,
   0xD807AA98, 0x12835B01, 0x243185BE, 0x550C7DC3, 0x72BE5D74, 0x80DEB1FE, 0x9BDC06A7, 0xC19BF174,
   0xE49B69C1, 0xEFBE4786, 0x0FC19DC6, 0x240CA1CC, 0x2DE92C6F, 0x4A7484AA, 0x5CB0A9DC, 0x76F988DA,
   0x983E5152, 0xA831C66D, 0xB00327C8, 0xBF597FC7, 0xC6E00BF3, 0xD5A79147, 0x06CA6351, 0x14292967,
   0x27B70A85, 0x2E1B2138, 0x4D2C6DFC, 0x53380D13, 0x650A7354, 0x766A0ABB, 0x81C2C92E, 0x92722C85,
   0xA2BFE8A1, 0xA81A664B, 0xC24B8B70, 0xC76C51A3, 0xD192E819, 0xD6990624, 0xF40E3585, 0x106AA070,
   0x19A4C116, 0x1E376C08, 0x2748774C, 0x34B0BCB5, 0x391C0CB3, 0x4ED8AA4A, 0x5B9CCA4F, 0x682E6FF3,
   0x748F82EE, 0x78A5636F, 0x84C87814, 0x8CC70208, 0x90BEFFFA, 0xA4506CEB, 0xBEF9A3F7, 0xC67178F2]

/-- Function `isLittleEndian`: stores the `int` 42 and compares the byte at its lowest address
with 42. -/
def isLittleEndian (le : Bool) : Bool :=
  (store32 le 42).getD 0 0 == 42

end internal

/-- Function `prepare_constants`: overwrites the eight words of `input` with `init_constants`. -/
def prepare_constants (input : List Nat) : List Nat :=
  (List.range 8).foldl (fun acc i => acc.set i (internal.init_constants.getD i 0)) input

/-! ## The compression function -/

/-- Body of the first loop of `sha256_block`: `w[i] = input[i]`. -/
def schedule_copy (input : List Nat) (w : List Nat) (i : Nat) : List Nat :=
  w.set i (input.getD i 0)

/-- Body of the second loop of `sha256_block`: extends the schedule by the word `w[i]`. -/
def schedule_extend (w : List Nat) (i : Nat) : List Nat :=
  let s0 := ror (w.getD (i - 15) 0) 7 ^^^ ror (w.getD (i - 15) 0) 18 ^^^ (w.getD (i - 15) 0 >>> 3)
  let s1 := ror (w.getD (i - 2) 0) 17 ^^^ ror (w.getD (i - 2) 0) 19 ^^^ (w.getD (i - 2) 0 >>> 10)
  w.set i (u32 (w.getD (i - 16) 0 + w.getD (i - 7) 0 + s0 + s1))

/-- The eight round variables `a` .. `h` of `sha256_block`. -/
structure Round where
  a : Nat
  b : Nat
  c : Nat
  d : Nat
  e : Nat
  f : Nat
  g : Nat
  h : Nat
deriving DecidableEq, Repr

/-- Body of the third loop of `sha256_block`: one round of the compression function. -/
def compress_round (w : List Nat) (s : Round) (i : Nat) : Round :=
  let S1 := ror s.e 6 ^^^ ror s.e 11 ^^^ ror s.e 25
  let ch := (s.e &&& s.f) ^^^ (not32 s.e &&& s.g)
  let temp1 := u32 (s.h + S1 + ch + internal.round_constants.getD i 0 + w.getD i 0)
  let S0 := ror s.a 2 ^^^ ror s.a 13 ^^^ ror s.a 22
  let maj := (s.a &&& s.b) ^^^ (s.a &&& s.c) ^^^ (s.b &&& s.c)
  let temp2 := u32 (S0 + maj)
  { h := s.g, g := s.f, f := s.e, e := u32 (s.d + temp1),
    d := s.c, c := s.b, b := s.a, a := u32 (temp1 + temp2) }

/-- The message schedule `w` of `sha256_block` after its first two loops. -/
def schedule (input : List Nat) : List Nat :=
  let w := (List.range 16).foldl (schedule_copy input) (List.replicate 64 0)
  (List.range' 16 48).foldl schedule_extend w

/-- Function `sha256_block`: compresses the 16-word block `input` into the chaining value
`h_init`. -/
def sha256_block (h_init : List Nat) (input : List Nat) : List Nat :=
  let w := schedule input
  let s0 : Round :=
    { a := h_init.getD 0 0, b := h_init.getD 1 0, c := h_init.getD 2 0, d := h_init.getD 3 0,
      e := h_init.getD 4 0, f := h_init.getD 5 0, g := h_init.getD 6 0, h := h_init.getD 7 0 }
  let s := (List.range 64).foldl (compress_round w) s0
  [u32 (s.a + h_init.getD 0 0), u32 (s.b + h_init.getD 1 0),
   u32 (s.c + h_init.getD 2 0), u32 (s.d + h_init.getD 3 0),
   u32 (s.e + h_init.getD 4 0), u32 (s.f + h_init.getD 5 0),
   u32 (s.g + h_init.getD 6 0), u32 (s.h + h_init.getD 7 0)]

/-! ## The digest function -/

/-- The local `num_zero_bytes` of `sha256`, as a function of `message_schedule.size()`
at that point (the input length plus one). -/
def num_zero_bytes (size : Nat) : Nat :=
  u32 ((u64 (448 + 18446744073709551616 - u64 (size <<< 3)) &&& 511) >>> 3)

/-- The local `l` of `sha256`: the bit length of the input, as a `uint64_t`. -/
def bit_length (input : List Nat) : Nat := u64 (input.length * 8)

/-- The vector `message_schedule` of `sha256` when the block loop is reached: the input,
the byte `0x80`, `num_zero_bytes` zero bytes and the eight bytes of `l`. -/
def padded (input : List Nat) : List Nat :=
  let message_schedule := input
  let l := bit_length input
  let message_schedule := message_schedule ++ [0x80]
  let n := num_zero_bytes message_schedule.length
  let message_schedule := (List.range n).foldl (fun m _ => m ++ [0x00]) message_schedule
  (List.range 8).foldl (fun m i => m ++ [u8 (l >>> u64 (56 - i * 8))]) message_schedule

/-- The array `hash_input` for block `i`: `memcpy` of 64 bytes starting at
`message_schedule[i * 64]`, then a byte swap of each word on a little-endian host. -/
def hash_input (le : Bool) (message_schedule : List Nat) (i : Nat) : List Nat :=
  let raw := (List.range 16).map (fun j =>
    load32 le (message_schedule.getD (i * 64 + 4 * j) 0) (message_schedule.getD (i * 64 + 4 * j + 1) 0)
      (message_schedule.getD (i * 64 + 4 * j + 2) 0) (message_schedule.getD (i * 64 + 4 * j + 3) 0))
  if internal.isLittleEndian le then raw.map bswap32 else raw

/-- The local `num_blocks` of `sha256`. -/
def num_blocks (message_schedule : List Nat) : Nat := message_schedule.length / 64

/-- The array `rolling_hash` of `sha256` after the block loop. -/
def rolling_hash (le : Bool) (message_schedule : List Nat) : List Nat :=
  (List.range (num_blocks message_schedule)).foldl
    (fun rh i => sha256_block rh (hash_input le message_schedule i))
    (prepare_constants (List.replicate 8 0))

/-- The vector `output` of `sha256`: `memcpy` of the eight words of `rolling_hash`, then a
byte swap of each of the eight words of the output on a little-endian host. -/
def output_bytes (le : Bool) (rh : List Nat) : List Nat :=
  let output := (List.range 8).flatMap (fun j => store32 le (rh.getD j 0))
  if internal.isLittleEndian le then
    (List.range 8).flatMap (fun j =>
      store32 le (bswap32 (load32 le (output.getD (4 * j) 0) (output.getD (4 * j + 1) 0)
        (output.getD (4 * j + 2) 0) (output.getD (4 * j + 3) 0))))
  else output

/-- Function `sha256`, on a host of byte order `le`: pads the input, compresses the padded
buffer block by block and writes the eight words of the final chaining value as 32
bytes. -/
def sha256 (le : Bool) (input : List Nat) : List Nat :=
  output_bytes le (rolling_hash le (padded input))

/-! ## Auxiliary definitions for the statements -/

/-- The eight bytes of the length field, most significant first. -/
def length_bytes (l : Nat) : List Nat :=
  [u8 (l >>> 56), u8 (l >>> 48), u8 (l >>> 40), u8 (l >>> 32),
   u8 (l >>> 24), u8 (l >>> 16), u8 (l >>> 8), u8 (l >>> 0)]

/-- The 56-byte two-block FIPS 180 test message
"abcdbcdecdefdefgefghfghighijhijkijkljklmklmnlmnomnopnopq" in ASCII. -/
def two_block_message : List Nat :=
      [0x61, 0x62, 0x63, 0x64, 0x62, 0x63, 0x64, 0x65,
       0x63, 0x64, 0x65, 0x66, 0x64, 0x65, 0x66, 0x67,
       0x65, 0x66, 0x67, 0x68, 0x66, 0x67, 0x68, 0x69,
       0x67, 0x68, 0x69, 0x6a, 0x68, 0x69, 0x6a, 0x6b,
       0x69, 0x6a, 0x6b, 0x6c, 0x6a, 0x6b, 0x6c, 0x6d,
       0x6b, 0x6c, 0x6d, 0x6e, 0x6c, 0x6d, 0x6e, 0x6f,
       0x6d, 0x6e, 0x6f, 0x70, 0x6e, 0x6f, 0x70, 0x71]

/-- The value of a byte sequence read as a big-endian number. -/
def decode_be (bytes : List Nat) : Nat := bytes.foldl (fun acc b => acc * 256 + b) 0

/-! ## Bounds-checked variants of `sha256_block` and `sha256`

The same code with every array access checked: a read or write outside the bounds of its
array, and a read of a cell of the local array `w` that has not been written, makes the
function return `none`. -/

/-- A checked read `a[i]` of an array or vector: `none` when `i` is outside the bounds. -/
def read_at (a : List Nat) (i : Nat) : Option Nat := a[i]?

/-- A checked write `a[i] = v` to an array: `none` when `i` is outside the bounds. -/
def write_at (a : List Nat) (i : Nat) (v : Nat) : Option (List Nat) :=
  if i < a.length then some (a.set i v) else none

/-- A checked read `w[i]` of the local array `w` of `sha256_block`, whose cells are `none`
until they are written: `none` when `i` is outside the bounds or the cell is unwritten. -/
def read_cell (w : List (Option Nat)) (i : Nat) : Option Nat := (w[i]?).join

/-- A checked write `w[i] = v` to the local array `w` of `sha256_block`. -/
def write_cell (w : List (Option Nat)) (i : Nat) (v : Nat) : Option (List (Option Nat)) :=
  if i < w.length then some (w.set i (some v)) else none

/-- The index `i - k` in `size_t` arithmetic (it wraps around below zero). -/
def size_sub (i k : Nat) : Nat := u64 (i + 18446744073709551616 - k)

/-- The values `f j` for the indices `j` of a list, in order; `none` when one of them
fails. -/
def read_all (f : Nat → Option Nat) : List Nat → Option (List Nat)
  | [] => some []
  | j :: js =>
    match f j, read_all f js with
    | some x, some xs => some (x :: xs)
    | _, _ => none

/-- Body of the first loop of `sha256_block`, checked. -/
def schedule_copy_checked (input : List Nat) (w : List (Option Nat)) (i : Nat) :
    Option (List (Option Nat)) :=
  (read_at input i).bind fun v => write_cell w i v

/-- Body of the second loop of `sha256_block`, checked. -/
def schedule_extend_checked (w : List (Option Nat)) (i : Nat) : Option (List (Option Nat)) :=
  (read_cell w (size_sub i 15)).bind fun w15 =>
  (read_cell w (size_sub i 2)).bind fun w2 =>
  (read_cell w (size_sub i 16)).bind fun w16 =>
  (read_cell w (size_sub i 7)).bind fun w7 =>
  let s0 := ror w15 7 ^^^ ror w15 18 ^^^ (w15 >>> 3)
  let s1 := ror w2 17 ^^^ ror w2 19 ^^^ (w2 >>> 10)
  write_cell w i (u32 (w16 + w7 + s0 + s1))

/-- Body of the third loop of `sha256_block`, checked. -/
def compress_round_checked (w : List (Option Nat)) (s : Round) (i : Nat) : Option Round :=
  (read_at internal.round_constants i).bind fun k =>
  (read_cell w i).bind fun wi =>
  let S1 := ror s.e 6 ^^^ ror s.e 11 ^^^ ror s.e 25
  let ch := (s.e &&& s.f) ^^^ (not32 s.e &&& s.g)
  let temp1 := u32 (s.h + S1 + ch + k + wi)
  let S0 := ror s.a 2 ^^^ ror s.a 13 ^^^ ror s.a 22
  let maj := (s.a &&& s.b) ^^^ (s.a &&& s.c) ^^^ (s.b &&& s.c)
  let temp2 := u32 (S0 + maj)
  some { h := s.g, g := s.f, f := s.e, e := u32 (s.d + temp1),
         d := s.c, c := s.b, b := s.a, a := u32 (temp1 + temp2) }

/-- Function `sha256_block` with every access to `input`, `w`, `h_init` and
`round_constants` checked. -/
def sha256_block_checked (h_init : List Nat) (input : List Nat) : Option (List Nat) :=
  ((List.range 16).foldlM (schedule_copy_checked input) (List.replicate 64 none)).bind fun w =>
  ((List.range' 16 48).foldlM schedule_extend_checked w).bind fun w =>
  (read_at h_init 0).bind fun a =>
  (read_at h_init 1).bind fun b =>
  (read_at h_init 2).bind fun c =>
  (read_at h_init 3).bind fun d =>
  (read_at h_init 4).bind fun e =>
  (read_at h_init 5).bind fun f =>
  (read_at h_init 6).bind fun g =>
  (read_at h_init 7).bind fun h =>
  ((List.range 64).foldlM (compress_round_checked w)
    { a := a, b := b, c := c, d := d, e := e, f := f, g := g, h := h }).bind fun s =>
  some [u32 (s.a + a), u32 (s.b + b), u32 (s.c + c), u32 (s.d + d),
        u32 (s.e + e), u32 (s.f + f), u32 (s.g + g), u32 (s.h + h)]

/-- Function `prepare_constants` with the accesses to `input` and `init_constants`
checked. -/
def prepare_constants_checked (input : List Nat) : Option (List Nat) :=
  (List.range 8).foldlM
    (fun acc i => (read_at internal.init_constants i).bind fun v => write_at acc i v) input

/-- The array `hash_input` for block `i`, with the 64 reads of `message_schedule`
checked. -/
def hash_input_checked (le : Bool) (message_schedule : List Nat) (i : Nat) :
    Option (List Nat) :=
  (read_all (fun j =>
    (read_at message_schedule (i * 64 + 4 * j)).bind fun b0 =>
    (read_at message_schedule (i * 64 + 4 * j + 1)).bind fun b1 =>
    (read_at message_schedule (i * 64 + 4 * j + 2)).bind fun b2 =>
    (read_at message_schedule (i * 64 + 4 * j + 3)).bind fun b3 =>
    some (load32 le b0 b1 b2 b3)) (List.range 16)).bind fun raw =>
  some (if internal.isLittleEndian le then raw.map bswap32 else raw)

/-- The vector `output` of `sha256`, with the reads of `rolling_hash` and of `output`
checked. -/
def output_bytes_checked (le : Bool) (rh : List Nat) : Option (List Nat) :=
  (read_all (read_at rh) (List.range 8)).bind fun words =>
  let output := words.flatMap (store32 le)
  if internal.isLittleEndian le then
    (read_all (fun j =>
      (read_at output (4 * j)).bind fun b0 =>
      (read_at output (4 * j + 1)).bind fun b1 =>
      (read_at output (4 * j + 2)).bind fun b2 =>
      (read_at output (4 * j + 3)).bind fun b3 =>
      some (bswap32 (load32 le b0 b1 b2 b3))) (List.range 8)).bind fun swapped =>
    some (swapped.flatMap (store32 le))
  else some output

/-- Function `sha256` with every array access checked. -/
def sha256_checked (le : Bool) (input : List Nat) : Option (List Nat) :=
  let message_schedule := padded input
  (prepare_constants_checked (List.replicate 8 0)).bind fun rh0 =>
  ((List.range (num_blocks message_schedule)).foldlM
    (fun rh i =>
      (hash_input_checked le message_schedule i).bind fun hi => sha256_block_checked rh hi)
    rh0).bind fun rh =>
  output_bytes_checked le rh

/-- The checked array `wc` and the unchecked array `wu` agree on the cells below `k`,
which are written. -/
def schedule_agree (k : Nat) (wc : List (Option Nat)) (wu : List Nat) : Prop :=
  wc.length = 64 ∧ wu.length = 64 ∧ ∀ j, j < k → wc[j]? = some (some (wu.getD j 0))

/-! ## Primes and cube roots, for the round constants -/

/-- The primes up to 311 in increasing order (there are 64 of them). -/
def first_primes : List Nat :=
  [2, 3, 5, 7, 11, 13, 17, 19, 23, 29, 31, 37, 41, 43, 47, 53,
   59, 61, 67, 71, 73, 79, 83, 89, 97, 101, 103, 107, 109, 113, 127, 131,
   137, 139, 149, 151, 157, 163, 167, 173, 179, 181, 191, 193, 197, 199, 211, 223,
   227, 229, 233, 239, 241, 251, 257, 263, 269, 271, 277, 281, 283, 293, 307, 311]

/-- The integer part of the cube root of `p`: the greatest `r` with `r ^ 3 <= p`. -/
def icbrt (p : Nat) : Nat := Nat.findGreatest (fun r => r ^ 3 ≤ p) p

/-- The word `k` is the first 32 bits of the fractional part of the cube root of `p`:
with `N = icbrt p * 2 ^ 32 + k`, the number `N / 2 ^ 32` is the cube root of `p` rounded
down to 32 binary places. -/
def is_cube_root_fraction (p k : Nat) : Prop :=
  icbrt p ^ 3 ≤ p ∧ p < (icbrt p + 1) ^ 3 ∧ k < 2 ^ 32 ∧
  (icbrt p * 2 ^ 32 + k) ^ 3 ≤ p * 2 ^ 96 ∧ p * 2 ^ 96 < (icbrt p * 2 ^ 32 + k + 1) ^ 3

/-- Decision procedure for `is_cube_root_fraction`: a conjunction of comparisons. -/
instance decidable_cube_root_fraction (p k : Nat) : Decidable (is_cube_root_fraction p k) := by
  unfold is_cube_root_fraction
  infer_instance

end sha256

/-! # The `field_t` handle and the circuit builder -/

namespace plonk
namespace stdlib

/-- The value `static_cast<uint32_t>(-1)`: the conversion of `-1` to `uint32_t`. -/
def NO_WITNESS : Nat := ((-1 : Int) % 4294967296).toNat

/-- The data members of `field_t<ComposerContext>`, with their default member
initialisers.  `F` stands for `barretenberg::fr::field_t`, whose declaration
(`curves/bn254/fr.hpp`) is not among the sources; `context` is the address of the owning
composer, `none` for `nullptr`. -/
structure field_t (F : Type) where
  context : Option Nat := none
  additive_constant : F
  multiplicative_constant : F
  witness_index : Nat := NO_WITNESS
deriving DecidableEq

namespace field_t

variable {F : Type}

/-- Member function `field_t::is_constant`:
`return witness_index == static_cast<uint32_t>(-1);`. -/
def is_constant (h : field_t F) : Bool := h.witness_index == NO_WITNESS

end field_t

/-- Modelled from the spec: the error classes of §7 that a handle operation can raise;
the code that raises them (`field.tcc`, the composers) is not among the sources. -/
inductive Error where
  | UsageError
  | ArithmeticError
deriving DecidableEq, Repr

/-- Modelled from the spec: a gate of the builder (§3, "wire indices + selector
coefficients"), of the generic three-wire shape
`q_m * a * b + q_l * a + q_r * b + q_o * c + q_c = 0`; the composer classes are not
among the sources. -/
structure Gate (F : Type) where
  a : Nat
  b : Nat
  c : Nat
  q_m : F
  q_l : F
  q_r : F
  q_o : F
  q_c : F
deriving DecidableEq

/-- Modelled from the spec: the CircuitBuilder of §3 in its Open state: an identity, the
append-only sequence of witness values and the append-only sequence of gates; the
composer classes are not among the sources. -/
structure CircuitBuilder (F : Type) where
  uid : Nat
  witnesses : List F
  gates : List (Gate F)
deriving DecidableEq

/-- Modelled from the spec: the outcome of a handle operation, whose definitions are not
among the sources: the handle it returns or the error it raises (§7), and the builder as
the operation leaves it. -/
abbrev Outcome (F : Type) := Except Error (field_t F) × CircuitBuilder F

section ops

variable {F : Type} [Field F] [DecidableEq F]

/-- Modelled from the spec: witness allocation of the CircuitBuilder (§4.3, "allocate a
witness from a concrete value (returns a wire id)"); the composer classes are not among
the sources. -/
def CircuitBuilder.allocate_witness (B : CircuitBuilder F) (v : F) : Nat × CircuitBuilder F :=
  (B.witnesses.length, { B with witnesses := B.witnesses ++ [v] })

/-- Modelled from the spec: gate emission of the CircuitBuilder (§4.3); the composer
classes are not among the sources. -/
def CircuitBuilder.emit_gate (B : CircuitBuilder F) (g : Gate F) : CircuitBuilder F :=
  { B with gates := B.gates ++ [g] }

/-- Modelled from the spec: a witness-based handle of builder `B` (§3): it carries a
witness, its owner is `B` and its witness index is valid within `B`. -/
def witness_based (B : CircuitBuilder F) (h : field_t F) : Bool :=
  !h.is_constant && h.context == some B.uid && decide (h.witness_index < B.witnesses.length)

/-- Modelled from the spec: a constant handle that may be combined with builder `B`
(§3): it carries no witness and has no owner or the owner `B`. -/
def constant_of (B : CircuitBuilder F) (h : field_t F) : Bool :=
  h.is_constant && (h.context == none || h.context == some B.uid)

/-- Modelled from the spec: the ownership rule of §3 and §4.3 and the UsageError cases of
§7: a handle may take part in an operation on builder `B` when it is a constant of `B`
or a witness-based handle of `B`. -/
def usable (B : CircuitBuilder F) (h : field_t F) : Bool :=
  constant_of B h || witness_based B h

/-- Modelled from the spec: the semantic value of a handle (§3),
`witness present ? multiplicative * value(witness) + additive : additive`. -/
def value_in (B : CircuitBuilder F) (h : field_t F) : F :=
  if h.is_constant then h.additive_constant
  else h.multiplicative_constant * B.witnesses.getD h.witness_index 0 + h.additive_constant

/-- Modelled from the spec: `field_t::get_value` (§4.1), declared in `field.hpp` and
defined in a file that is not among the sources: the concrete field element implied by
the constants and the trace value of the witness; a handle that is not usable with the
builder is a UsageError (§7). -/
def get_value (B : CircuitBuilder F) (h : field_t F) : Except Error F :=
  if usable B h then .ok (value_in B h) else .error .UsageError

/-- Modelled from the spec: the handle that "wraps the fresh witness with identity
constants" (§4.1); the wire id is stored in the `uint32_t` member `witness_index`. -/
def wrap_witness (B : CircuitBuilder F) (z : Nat) : field_t F :=
  { context := some B.uid, additive_constant := 0, multiplicative_constant := 1,
    witness_index := z % 4294967296 }

/-- Modelled from the spec: `field_t::operator+` (§4.1 Addition), declared in `field.hpp`
and defined in a file that is not among the sources. -/
def add (B : CircuitBuilder F) (a b : field_t F) : Outcome F :=
  if !(usable B a && usable B b) then (.error .UsageError, B)
  else if a.is_constant && b.is_constant then
    (.ok { context := a.context <|> b.context,
           additive_constant := a.additive_constant + b.additive_constant,
           multiplicative_constant := 1 }, B)
  else if b.is_constant then
    (.ok { a with additive_constant := a.additive_constant + b.additive_constant }, B)
  else if a.is_constant then
    (.ok { b with additive_constant := a.additive_constant + b.additive_constant }, B)
  else
    let alloc := B.allocate_witness (value_in B a + value_in B b)
    let B2 := alloc.2.emit_gate
      { a := a.witness_index, b := b.witness_index, c := alloc.1,
        q_m := 0, q_l := a.multiplicative_constant, q_r := b.multiplicative_constant,
        q_o := -1, q_c := a.additive_constant + b.additive_constant }
    (.ok (wrap_witness B alloc.1), B2)

/-- Modelled from the spec: `field_t::operator*` (§4.1 Multiplication), declared in
`field.hpp` and defined in a file that is not among the sources.  The quadratic gate
carries the cross terms of the two affine operands in `q_l` and `q_r`. -/
def mul (B : CircuitBuilder F) (a b : field_t F) : Outcome F :=
  if !(usable B a && usable B b) then (.error .UsageError, B)
  else if a.is_constant && b.is_constant then
    (.ok { context := a.context <|> b.context,
           additive_constant := a.additive_constant * b.additive_constant,
           multiplicative_constant := 1 }, B)
  else if b.is_constant then
    (.ok { a with multiplicative_constant := a.multiplicative_constant * b.additive_constant,
                  additive_constant := a.additive_constant * b.additive_constant }, B)
  else if a.is_constant then
    (.ok { b with multiplicative_constant := b.multiplicative_constant * a.additive_constant,
                  additive_constant := b.additive_constant * a.additive_constant }, B)
  else
    let alloc := B.allocate_witness (value_in B a * value_in B b)
    let B2 := alloc.2.emit_gate
      { a := a.witness_index, b := b.witness_index, c := alloc.1,
        q_m := a.multiplicative_constant * b.multiplicative_constant,
        q_l := a.multiplicative_constant * b.additive_constant,
        q_r := a.additive_constant * b.multiplicative_constant,
        q_o := -1, q_c := a.additive_constant * b.additive_constant }
    (.ok (wrap_witness B alloc.1), B2)

/-- Modelled from the spec: the wire a handle contributes to a gate of the missing
composer: its witness index, or wire 0 (with a zero selector) when it is a constant. -/
def wire_of (h : field_t F) : Nat := if h.is_constant then 0 else h.witness_index

/-- Modelled from the spec: the coefficient of the wire of a handle in a gate of the
missing composer: its multiplicative constant, or zero when it is a constant. -/
def scale_of (h : field_t F) : F := if h.is_constant then 0 else h.multiplicative_constant

/-- Modelled from the spec: `field_t::operator/` (§4.1 Division), declared in
`field.hpp` and defined in a file that is not among the sources: fails with an arithmetic
error when the divisor evaluates to zero, before anything is emitted; otherwise it
allocates a witness for the quotient and emits the gate enforcing
`b * quotient = a`. -/
def div (B : CircuitBuilder F) (a b : field_t F) : Outcome F :=
  if !(usable B a && usable B b) then (.error .UsageError, B)
  else if value_in B b = 0 then (.error .ArithmeticError, B)
  else
    let alloc := B.allocate_witness (value_in B a * (value_in B b)⁻¹)
    let B2 := alloc.2.emit_gate
      { a := wire_of b, b := alloc.1, c := wire_of a,
        q_m := scale_of b, q_l := 0, q_r := b.additive_constant,
        q_o := - scale_of a, q_c := - a.additive_constant }
    (.ok (wrap_witness B alloc.1), B2)

/-- Modelled from the spec: `field_t::normalize` (§4.1), declared in `field.hpp` and
defined in a file that is not among the sources: a handle that carries a witness and
non-identity constants is materialised into a fresh witness with identity constants by
one linear gate; any other usable handle is returned as it is. -/
def normalize (B : CircuitBuilder F) (h : field_t F) : Outcome F :=
  if !usable B h then (.error .UsageError, B)
  else if h.is_constant then (.ok h, B)
  else if h.multiplicative_constant = 1 ∧ h.additive_constant = 0 then (.ok h, B)
  else
    let alloc := B.allocate_witness (value_in B h)
    let B2 := alloc.2.emit_gate
      { a := h.witness_index, b := h.witness_index, c := alloc.1,
        q_m := 0, q_l := h.multiplicative_constant, q_r := 0,
        q_o := -1, q_c := h.additive_constant }
    (.ok (wrap_witness B alloc.1), B2)

end ops

/-! ## A sample field, builder and handles for concrete instances -/

/-- The prime 13, for the sample field `ZMod 13`. -/
instance fact_prime_thirteen : Fact (Nat.Prime 13) := ⟨by norm_num⟩

/-- A sample builder over `ZMod 13` with the three witnesses 2, 5 and 0. -/
def sample_builder : CircuitBuilder (ZMod 13) := { uid := 1, witnesses := [2, 5, 0], gates := [] }

/-- The sample handle on wire `i` of `sample_builder` with constants `m` and `c`. -/
def sample_wire (i : Nat) (m c : ZMod 13) : field_t (ZMod 13) :=
  { context := some 1, additive_constant := c, multiplicative_constant := m, witness_index := i }

/-- The sample constant handle of value `c`, without an owner. -/
def sample_constant (c : ZMod 13) : field_t (ZMod 13) :=
  { additive_constant := c, multiplicative_constant := 1 }

end stdlib
end plonk

/-! # Helper lemmas -/

set_option linter.unusedSectionVars false
set_option maxRecDepth 100000

/-! ## Padding and byte order of `sha256` -/

namespace sha256

theorem foldl_push_zero (n : Nat) (m : List Nat) :
    (List.range n).foldl (fun acc _ => acc ++ [0x00]) m = m ++ List.replicate n 0 := by
  induction n with
  | zero => simp
  | succ k ih =>
    rw [List.range_succ, List.foldl_append, ih]
    simp [List.replicate_succ' ]

theorem padded_eq (input : List Nat) :
    padded input = input ++ [0x80] ++ List.replicate (num_zero_bytes (input.length + 1)) 0
      ++ length_bytes (bit_length input) := by
  unfold padded
  simp only [foldl_push_zero, List.length_append, List.length_singleton]
  simp [List.range_succ, length_bytes, u64]

theorem num_zero_bytes_eq (n : Nat) :
    num_zero_bytes (n + 1) = (55 + 64 * n - n) % 64 := by
  unfold num_zero_bytes u32 u64
  rw [show (511 : Nat) = 2 ^ 9 - 1 from rfl, Nat.and_pow_two_sub_one_eq_mod,
    Nat.shiftRight_eq_div_pow, Nat.shiftLeft_eq]
  have hx : (n + 1) * 2 ^ 3 % 18446744073709551616 % 512 = (n + 1) * 2 ^ 3 % 512 :=
    Nat.mod_mod_of_dvd _ (by norm_num)
  have hlt : (n + 1) * 2 ^ 3 % 18446744073709551616 < 18446744073709551616 :=
    Nat.mod_lt _ (by norm_num)
  generalize (n + 1) * 2 ^ 3 % 18446744073709551616 = x at hx hlt
  have hy : (448 + 18446744073709551616 - x) % 18446744073709551616 % 2 ^ 9
      = (448 + 18446744073709551616 - x) % 512 :=
    Nat.mod_mod_of_dvd _ (by norm_num)
  rw [hy]
  have h8 : (n + 1) * 2 ^ 3 = 8 * n + 8 := by ring
  rw [h8] at hx
  have h0 : (448 + 18446744073709551616 - x) % 512 = (960 - x % 512) % 512 := by omega
  rw [h0, hx]
  have h1 : (8 * n + 8) % 512 = 8 * ((n + 1) % 64) := by omega
  have h2 : (960 - (8 * n + 8) % 512) % 512 / 8 = (120 - (n + 1) % 64) % 64 := by omega
  have h3 : (55 + 64 * n - n) % 64 = (120 - (n + 1) % 64) % 64 := by omega
  norm_num
  omega

theorem getD_lt_of_forall_mem (m : List Nat) (h : ∀ b ∈ m, b < 256) (k : Nat) :
    m.getD k 0 < 256 := by
  by_cases hk : k < m.length
  · rw [List.getD_eq_getElem _ _ hk]
    exact h _ (List.getElem_mem hk)
  · rw [List.getD_eq_default _ _ (by omega)]
    decide

theorem padded_bytes (input : List Nat) (h : ∀ b ∈ input, b < 256) :
    ∀ b ∈ padded input, b < 256 := by
  intro b hb
  rw [padded_eq] at hb
  simp only [List.mem_append, List.mem_singleton, List.mem_replicate, length_bytes, u8,
    List.mem_cons, List.not_mem_nil, or_false] at hb
  have hmod : ∀ x : Nat, x % 256 < 256 := fun x => Nat.mod_lt _ (by decide)
  rcases hb with ((hb | hb) | hb) | hb
  · exact h b hb
  · omega
  · omega
  · rcases hb with hb | hb | hb | hb | hb | hb | hb | hb <;> (rw [hb]; exact hmod _)

theorem bswap32_load32 (b0 b1 b2 b3 : Nat) (h0 : b0 < 256) (h1 : b1 < 256) (h2 : b2 < 256)
    (h3 : b3 < 256) : bswap32 (load32 true b0 b1 b2 b3) = load32 false b0 b1 b2 b3 := by
  simp only [bswap32, load32, if_true, Bool.false_eq_true, if_false]
  omega

theorem isLittleEndian_true : internal.isLittleEndian true = true := by decide

theorem isLittleEndian_false : internal.isLittleEndian false = false := by decide

theorem hash_input_host (m : List Nat) (hm : ∀ b ∈ m, b < 256) (i : Nat) :
    hash_input true m i = hash_input false m i := by
  simp only [hash_input, isLittleEndian_true, isLittleEndian_false, if_true,
    Bool.false_eq_true, if_false, List.map_map]
  apply List.map_congr_left
  intro j _
  exact bswap32_load32 _ _ _ _ (getD_lt_of_forall_mem m hm _) (getD_lt_of_forall_mem m hm _)
    (getD_lt_of_forall_mem m hm _) (getD_lt_of_forall_mem m hm _)

theorem rolling_hash_host (m : List Nat) (hm : ∀ b ∈ m, b < 256) :
    rolling_hash true m = rolling_hash false m := by
  have hstep : (fun rh i => sha256_block rh (hash_input true m i))
      = (fun rh i => sha256_block rh (hash_input false m i)) := by
    funext rh i
    rw [hash_input_host m hm i]
  unfold rolling_hash
  rw [hstep]

theorem bytes_of_word (a b c d : Nat) (ha : a < 256) (hb : b < 256) (hc : c < 256)
    (hd : d < 256) :
    (a + b * 256 + c * 65536 + d * 16777216) % 256 = a ∧
    (a + b * 256 + c * 65536 + d * 16777216) / 256 % 256 = b ∧
    (a + b * 256 + c * 65536 + d * 16777216) / 65536 % 256 = c ∧
    (a + b * 256 + c * 65536 + d * 16777216) / 16777216 % 256 = d := by
  refine ⟨by omega, by omega, by omega, by omega⟩

theorem store32_bswap32 (x : Nat) :
    store32 true (bswap32 (load32 true (x % 256) (x / 256 % 256) (x / 65536 % 256)
      (x / 16777216 % 256))) = store32 false x := by
  have hmod : ∀ y : Nat, y % 256 < 256 := fun y => Nat.mod_lt _ (by decide)
  simp only [bswap32, load32, store32, if_true, Bool.false_eq_true, if_false]
  obtain ⟨h0, h1, h2, h3⟩ := bytes_of_word (x % 256) (x / 256 % 256) (x / 65536 % 256)
    (x / 16777216 % 256) (hmod _) (hmod _) (hmod _) (hmod _)
  rw [h0, h1, h2, h3]
  obtain ⟨k0, k1, k2, k3⟩ := bytes_of_word (x / 16777216 % 256) (x / 65536 % 256)
    (x / 256 % 256) (x % 256) (hmod _) (hmod _) (hmod _) (hmod _)
  have e : x % 256 * 16777216 + x / 256 % 256 * 65536 + x / 65536 % 256 * 256
      + x / 16777216 % 256
      = x / 16777216 % 256 + x / 65536 % 256 * 256 + x / 256 % 256 * 65536
        + x % 256 * 16777216 := by omega
  rw [e, k0, k1, k2, k3]

theorem output_bytes_host (rh : List Nat) : output_bytes true rh = output_bytes false rh := by
  simp only [output_bytes, isLittleEndian_true, isLittleEndian_false, if_true,
    Bool.false_eq_true, if_false]
  have hs : ∀ x, store32 true x = [x % 256, x / 256 % 256, x / 65536 % 256, x / 16777216 % 256] := by
    intro x; simp [store32]
  simp only [hs, List.range_succ, List.range_zero, List.nil_append, List.flatMap_append,
    List.flatMap_cons, List.flatMap_nil, List.append_nil, List.cons_append,
    List.singleton_append, List.getD_cons_zero, List.getD_cons_succ, Nat.mul_zero, Nat.zero_add,
    Nat.mul_one, Nat.reduceMul, Nat.reduceAdd]
  have el : ∀ x : Nat,
      store32 true (bswap32 (load32 true (x % 256) (x / 256 % 256) (x / 65536 % 256)
        (x / 16777216 % 256))) = store32 false x := store32_bswap32
  simp only [store32, if_true, Bool.false_eq_true, if_false, List.cons.injEq, and_true] at el
  have e0 := fun x => (el x).1
  have e1 := fun x => (el x).2.1
  have e2 := fun x => (el x).2.2.1
  have e3 := fun x => (el x).2.2.2
  simp only [e0, e1, e2, e3, store32, Bool.false_eq_true, if_false]
  rfl

theorem decode_length_bytes (l : Nat) (hl : l < 18446744073709551616) :
    decode_be (length_bytes l) = l := by
  simp only [decode_be, length_bytes, u8, List.foldl_cons, List.foldl_nil,
    Nat.shiftRight_eq_div_pow]
  norm_num
  omega

theorem bit_length_eq (input : List Nat) (hn : input.length < 2 ^ 61) :
    bit_length input = 8 * input.length := by
  unfold bit_length u64
  omega

/-! ## The checked variants agree with the unchecked ones -/

theorem foldlM_range'_sim {σ τ : Type} (R : Nat → σ → τ → Prop) (f : σ → Nat → Option σ)
    (g : τ → Nat → τ) (lo hi : Nat)
    (hstep : ∀ i sc su, lo ≤ i → i < hi → R i sc su →
      ∃ sc', f sc i = some sc' ∧ R (i + 1) sc' (g su i)) :
    ∀ n k sc su, lo ≤ k → k + n ≤ hi → R k sc su →
      ∃ sc', (List.range' k n).foldlM f sc = some sc' ∧
        R (k + n) sc' ((List.range' k n).foldl g su) := by
  intro n
  induction n with
  | zero =>
    intro k sc su _ _ hR
    exact ⟨sc, rfl, hR⟩
  | succ n ih =>
    intro k sc su hlo hhi hR
    obtain ⟨sc1, h1, hR1⟩ := hstep k sc su hlo (by omega) hR
    obtain ⟨sc2, h2, hR2⟩ := ih (k + 1) sc1 (g su k) (by omega) (by omega) hR1
    refine ⟨sc2, ?_, ?_⟩
    · rw [List.range'_succ, List.foldlM_cons, h1]
      exact h2
    · rw [List.range'_succ, List.foldl_cons]
      have e : k + (n + 1) = k + 1 + n := by omega
      rw [e]
      exact hR2

theorem read_all_eq (f : Nat → Option Nat) (g : Nat → Nat) (l : List Nat)
    (h : ∀ j ∈ l, f j = some (g j)) : read_all f l = some (l.map g) := by
  induction l with
  | nil => rfl
  | cons j js ih =>
    have hj := h j (List.mem_cons_self _ _)
    have hjs := ih (fun x hx => h x (List.mem_cons_of_mem _ hx))
    simp only [read_all, hj, hjs, List.map_cons]

theorem read_at_eq (a : List Nat) (i : Nat) (h : i < a.length) :
    read_at a i = some (a.getD i 0) := by
  unfold read_at
  rw [List.getD_eq_getElem _ _ h, List.getElem?_eq_getElem h]

theorem read_cell_eq {k : Nat} {wc : List (Option Nat)} {wu : List Nat}
    (h : schedule_agree k wc wu) (j : Nat) (hj : j < k) :
    read_cell wc j = some (wu.getD j 0) := by
  unfold read_cell
  rw [h.2.2 j hj]
  rfl

theorem schedule_agree_write {k : Nat} {wc : List (Option Nat)} {wu : List Nat}
    (h : schedule_agree k wc wu) (hk : k < 64) (v : Nat) :
    ∃ wc', write_cell wc k v = some wc' ∧ schedule_agree (k + 1) wc' (wu.set k v) := by
  obtain ⟨h1, h2, h3⟩ := h
  refine ⟨wc.set k (some v), ?_, ?_, ?_, ?_⟩
  · unfold write_cell
    rw [if_pos (by omega)]
  · rw [List.length_set]
    exact h1
  · rw [List.length_set]
    exact h2
  · intro j hj
    by_cases hjk : j = k
    · subst hjk
      rw [List.getElem?_set_self (by omega), List.getD_eq_getElem _ _ (by rw [List.length_set]; omega),
        List.getElem_set_self]
    · rw [List.getElem?_set_ne (Ne.symm hjk), h3 j (by omega)]
      congr 2
      rw [List.getD_eq_getElem?_getD, List.getD_eq_getElem?_getD,
        List.getElem?_set_ne (Ne.symm hjk)]

theorem schedule_copy_step (input : List Nat) (hin : input.length = 16) (i : Nat)
    (wc : List (Option Nat)) (wu : List Nat) (hi : i < 16) (h : schedule_agree i wc wu) :
    ∃ wc', schedule_copy_checked input wc i = some wc' ∧
      schedule_agree (i + 1) wc' (schedule_copy input wu i) := by
  unfold schedule_copy_checked schedule_copy
  rw [read_at_eq input i (by omega), Option.some_bind]
  exact schedule_agree_write h (by omega) _

theorem schedule_extend_step (i : Nat) (wc : List (Option Nat)) (wu : List Nat)
    (hlo : 16 ≤ i) (hi : i < 64) (h : schedule_agree i wc wu) :
    ∃ wc', schedule_extend_checked wc i = some wc' ∧
      schedule_agree (i + 1) wc' (schedule_extend wu i) := by
  have e15 : size_sub i 15 = i - 15 := by unfold size_sub u64; omega
  have e2 : size_sub i 2 = i - 2 := by unfold size_sub u64; omega
  have e16 : size_sub i 16 = i - 16 := by unfold size_sub u64; omega
  have e7 : size_sub i 7 = i - 7 := by unfold size_sub u64; omega
  unfold schedule_extend_checked schedule_extend
  rw [e15, e2, e16, e7, read_cell_eq h (i - 15) (by omega), Option.some_bind,
    read_cell_eq h (i - 2) (by omega), Option.some_bind,
    read_cell_eq h (i - 16) (by omega), Option.some_bind,
    read_cell_eq h (i - 7) (by omega), Option.some_bind]
  exact schedule_agree_write h hi _

theorem schedule_checked_eq (input : List Nat) (hin : input.length = 16) :
    ∃ w1 w2,
      (List.range 16).foldlM (schedule_copy_checked input) (List.replicate 64 none) = some w1 ∧
      (List.range' 16 48).foldlM schedule_extend_checked w1 = some w2 ∧
      schedule_agree 64 w2 (schedule input) := by
  have h0 : schedule_agree 0 (List.replicate 64 (none : Option Nat)) (List.replicate 64 0) :=
    ⟨by simp, by simp, fun j hj => absurd hj (Nat.not_lt_zero j)⟩
  obtain ⟨w1, hw1, hR1⟩ := foldlM_range'_sim schedule_agree (schedule_copy_checked input)
    (schedule_copy input) 0 16
    (fun i sc su _ hi h => schedule_copy_step input hin i sc su hi h)
    16 0 _ _ (Nat.le_refl _) (by omega) h0
  obtain ⟨w2, hw2, hR2⟩ := foldlM_range'_sim schedule_agree schedule_extend_checked
    schedule_extend 16 64
    (fun i sc su hlo hi h => schedule_extend_step i sc su hlo hi h)
    48 16 _ _ (Nat.le_refl _) (by omega) hR1
  refine ⟨w1, w2, ?_, hw2, ?_⟩
  · rw [List.range_eq_range']
    exact hw1
  · unfold schedule
    rw [List.range_eq_range']
    exact hR2

theorem compress_round_step (wc : List (Option Nat)) (wu : List Nat)
    (h : schedule_agree 64 wc wu) (s : Round) (i : Nat) (hi : i < 64) :
    compress_round_checked wc s i = some (compress_round wu s i) := by
  unfold compress_round_checked compress_round
  rw [read_at_eq internal.round_constants i (by simpa [internal.round_constants] using hi),
    Option.some_bind, read_cell_eq h i hi, Option.some_bind]

theorem compress_checked_eq (wc : List (Option Nat)) (wu : List Nat)
    (h : schedule_agree 64 wc wu) (s : Round) :
    (List.range 64).foldlM (compress_round_checked wc) s
      = some ((List.range 64).foldl (compress_round wu) s) := by
  obtain ⟨s1, hs1, hR⟩ := foldlM_range'_sim (fun _ (sc su : Round) => sc = su)
    (compress_round_checked wc) (compress_round wu) 0 64
    (fun i sc su _ hi hsc => ⟨compress_round wu su i, by
      rw [hsc]; exact compress_round_step wc wu h su i hi, rfl⟩)
    64 0 s s (Nat.le_refl _) (by omega) rfl
  rw [List.range_eq_range', hs1, hR]

theorem sha256_block_checked_eq (h_init input : List Nat) (hh : h_init.length = 8)
    (hin : input.length = 16) :
    sha256_block_checked h_init input = some (sha256_block h_init input) := by
  obtain ⟨w1, wc, hw1, hwc, hR⟩ := schedule_checked_eq input hin
  unfold sha256_block_checked sha256_block
  rw [hw1, Option.some_bind, hwc, Option.some_bind]
  simp only [read_at_eq h_init _ (show 0 < h_init.length by omega),
    read_at_eq h_init _ (show 1 < h_init.length by omega),
    read_at_eq h_init _ (show 2 < h_init.length by omega),
    read_at_eq h_init _ (show 3 < h_init.length by omega),
    read_at_eq h_init _ (show 4 < h_init.length by omega),
    read_at_eq h_init _ (show 5 < h_init.length by omega),
    read_at_eq h_init _ (show 6 < h_init.length by omega),
    read_at_eq h_init _ (show 7 < h_init.length by omega),
    Option.some_bind, compress_checked_eq wc _ hR]

theorem prepare_constants_checked_eq :
    prepare_constants_checked (List.replicate 8 0)
      = some (prepare_constants (List.replicate 8 0)) ∧
    (prepare_constants (List.replicate 8 0)).length = 8 := by
  decide

theorem hash_input_length (le : Bool) (m : List Nat) (i : Nat) :
    (hash_input le m i).length = 16 := by
  unfold hash_input
  split <;> simp

theorem hash_input_checked_eq (le : Bool) (m : List Nat) (i : Nat)
    (hi : i * 64 + 64 ≤ m.length) :
    hash_input_checked le m i = some (hash_input le m i) := by
  unfold hash_input_checked hash_input
  rw [read_all_eq _ (fun j => load32 le (m.getD (i * 64 + 4 * j) 0)
    (m.getD (i * 64 + 4 * j + 1) 0) (m.getD (i * 64 + 4 * j + 2) 0)
    (m.getD (i * 64 + 4 * j + 3) 0)), Option.some_bind]
  intro j hj
  rw [List.mem_range] at hj
  rw [read_at_eq m _ (by omega), Option.some_bind, read_at_eq m _ (by omega), Option.some_bind,
    read_at_eq m _ (by omega), Option.some_bind, read_at_eq m _ (by omega), Option.some_bind]

theorem sha256_block_length (h_init input : List Nat) :
    (sha256_block h_init input).length = 8 := by
  unfold sha256_block
  rfl

theorem rolling_hash_checked_eq (le : Bool) (m : List Nat) :
    (List.range (num_blocks m)).foldlM
      (fun rh i => (hash_input_checked le m i).bind fun hi => sha256_block_checked rh hi)
      (prepare_constants (List.replicate 8 0)) = some (rolling_hash le m) ∧
    (rolling_hash le m).length = 8 := by
  obtain ⟨r, hr, hR⟩ := foldlM_range'_sim
    (fun _ (sc su : List Nat) => sc = su ∧ su.length = 8)
    (fun rh i => (hash_input_checked le m i).bind fun hi => sha256_block_checked rh hi)
    (fun rh i => sha256_block rh (hash_input le m i)) 0 (num_blocks m)
    (fun i sc su _ hi hsc => ⟨sha256_block su (hash_input le m i), by
      obtain ⟨e, hl⟩ := hsc
      subst e
      have hb : i * 64 + 64 ≤ m.length := by
        unfold num_blocks at hi
        omega
      show (hash_input_checked le m i).bind (fun hi => sha256_block_checked sc hi) = _
      rw [hash_input_checked_eq le m i hb, Option.some_bind]
      exact sha256_block_checked_eq _ _ hl (hash_input_length le m i),
      rfl, sha256_block_length _ _⟩)
    (num_blocks m) 0 _ _ (Nat.le_refl _) (by omega)
    ⟨rfl, prepare_constants_checked_eq.2⟩
  unfold rolling_hash
  rw [List.range_eq_range', hr, hR.1]
  exact ⟨rfl, hR.2⟩

theorem store32_length (le : Bool) (x : Nat) : (store32 le x).length = 4 := by
  unfold store32
  split <;> rfl

theorem output_bytes_checked_eq (le : Bool) (rh : List Nat) (hrh : rh.length = 8) :
    output_bytes_checked le rh = some (output_bytes le rh) := by
  unfold output_bytes_checked output_bytes
  rw [read_all_eq (read_at rh) (fun j => rh.getD j 0) (List.range 8)
    (fun j hj => read_at_eq rh j (by rw [List.mem_range] at hj; omega)), Option.some_bind]
  simp only [List.flatMap_map]
  split
  · have hlen : ((List.range 8).flatMap (fun j => store32 le (rh.getD j 0))).length = 32 := by
      simp [List.range_succ, store32_length]
    rw [read_all_eq _ (fun j => bswap32 (load32 le
      (((List.range 8).flatMap (fun j => store32 le (rh.getD j 0))).getD (4 * j) 0)
      (((List.range 8).flatMap (fun j => store32 le (rh.getD j 0))).getD (4 * j + 1) 0)
      (((List.range 8).flatMap (fun j => store32 le (rh.getD j 0))).getD (4 * j + 2) 0)
      (((List.range 8).flatMap (fun j => store32 le (rh.getD j 0))).getD (4 * j + 3) 0))),
      Option.some_bind, List.flatMap_map]
    intro j hj
    rw [List.mem_range] at hj
    rw [read_at_eq _ _ (by omega), Option.some_bind, read_at_eq _ _ (by omega),
      Option.some_bind, read_at_eq _ _ (by omega), Option.some_bind,
      read_at_eq _ _ (by omega), Option.some_bind]
  · rfl

theorem sha256_checked_eq (le : Bool) (input : List Nat) :
    sha256_checked le input = some (sha256 le input) := by
  unfold sha256_checked sha256
  simp only [prepare_constants_checked_eq.1, Option.some_bind,
    (rolling_hash_checked_eq le (padded input)).1]
  exact output_bytes_checked_eq le _ (rolling_hash_checked_eq le (padded input)).2
/-! ## The first 64 primes -/

theorem first_primes_count :
    ∀ i, i < 64 → Nat.Prime (first_primes.getD i 0) ∧
      @Nat.count Nat.Prime Nat.decidablePrime1 (first_primes.getD i 0) = i := by
  have h : ∀ i, i < 64 →
      @Decidable.decide (Nat.Prime (first_primes.getD i 0)) (Nat.decidablePrime1 _) = true ∧
      @Nat.count Nat.Prime Nat.decidablePrime1 (first_primes.getD i 0) = i := by
    decide
  intro i hi
  exact ⟨@of_decide_eq_true _ (Nat.decidablePrime1 _) (h i hi).1, (h i hi).2⟩

theorem nth_prime_eq (i : Nat) (hi : i < 64) :
    Nat.nth Nat.Prime i = first_primes.getD i 0 := by
  obtain ⟨hp, hc⟩ := first_primes_count i hi
  have hc2 : Nat.count Nat.Prime (first_primes.getD i 0) = i := by
    convert hc
  have h := Nat.nth_count hp
  rw [hc2] at h
  exact h

theorem round_constants_check :
    ∀ i, i < 64 →
      is_cube_root_fraction (first_primes.getD i 0) (internal.round_constants.getD i 0) := by
  decide

end sha256

/-! ## Handles and builders -/

namespace plonk
namespace stdlib

section lemmas

variable {F : Type}

theorem NO_WITNESS_eq : NO_WITNESS = 4294967295 := by decide

theorem usable_of_witness_based {B : CircuitBuilder F} {h : field_t F}
    (hw : witness_based B h = true) : usable B h = true := by
  simp [usable, hw]

theorem usable_of_constant_of {B : CircuitBuilder F} {h : field_t F}
    (hc : constant_of B h = true) : usable B h = true := by
  simp [usable, hc]

theorem not_constant_of_witness_based {B : CircuitBuilder F} {h : field_t F}
    (hw : witness_based B h = true) : h.is_constant = false := by
  simp only [witness_based, Bool.and_eq_true, Bool.not_eq_true'] at hw
  exact hw.1.1

theorem is_constant_of_constant_of {B : CircuitBuilder F} {h : field_t F}
    (hc : constant_of B h = true) : h.is_constant = true := by
  simp only [constant_of, Bool.and_eq_true] at hc
  exact hc.1

theorem get_value_eq_ok {F : Type} [Field F] [DecidableEq F] {B : CircuitBuilder F}
    {h : field_t F} {v : F} (hv : get_value B h = .ok v) :
    usable B h = true ∧ v = value_in B h := by
  unfold get_value at hv
  by_cases hu : usable B h = true
  · rw [if_pos hu] at hv
    injection hv with hv
    exact ⟨hu, hv.symm⟩
  · rw [if_neg hu] at hv
    cases hv

theorem normalize_wrap {F : Type} [Field F] [DecidableEq F] (B : CircuitBuilder F)
    (v : F) (g : Gate F) :
    normalize ((B.allocate_witness v).2.emit_gate g) (wrap_witness B (B.allocate_witness v).1)
      = (.ok (wrap_witness B (B.allocate_witness v).1), (B.allocate_witness v).2.emit_gate g) := by
  have hlt : B.witnesses.length % 4294967296 < B.witnesses.length + 1 :=
    Nat.lt_succ_of_le (Nat.mod_le _ _)
  by_cases hs : B.witnesses.length % 4294967296 = NO_WITNESS
  · simp [normalize, usable, constant_of, witness_based, wrap_witness, field_t.is_constant,
      CircuitBuilder.allocate_witness, CircuitBuilder.emit_gate, hs]
  · simp [normalize, usable, constant_of, witness_based, wrap_witness, field_t.is_constant,
      CircuitBuilder.allocate_witness, CircuitBuilder.emit_gate, hs, hlt]

theorem get_value_wrap {F : Type} [Field F] [DecidableEq F] (B : CircuitBuilder F)
    (v : F) (g : Gate F) (hcap : B.witnesses.length < 4294967295) :
    get_value ((B.allocate_witness v).2.emit_gate g) (wrap_witness B (B.allocate_witness v).1)
      = .ok v := by
  have hmod : B.witnesses.length % 4294967296 = B.witnesses.length :=
    Nat.mod_eq_of_lt (by omega)
  have hs : ¬ B.witnesses.length = NO_WITNESS := by
    rw [NO_WITNESS_eq]
    omega
  simp [get_value, value_in, usable, constant_of, witness_based, wrap_witness,
    field_t.is_constant, CircuitBuilder.allocate_witness, CircuitBuilder.emit_gate, hmod, hs]

end lemmas

end stdlib
end plonk

/-! ## Theorems on `sha256` -/

namespace sha256

/-- C1: for every input byte sequence, of any length, and on a host of either byte
order, `sha256` returns a byte vector (every element below 256) of length exactly 32. -/
theorem sha256_length (le : Bool) (input : List Nat) :
    (sha256 le input).length = 32 ∧ ∀ b ∈ sha256 le input, b < 256 := by
  constructor
  · unfold sha256 output_bytes
    cases le <;> simp [internal.isLittleEndian, store32, List.range_succ, List.flatMap]
  · intro b hb
    have hmem : ∀ (k : Bool) (x : Nat), ∀ y ∈ store32 k x, y < 256 := by
      intro k x y hy
      cases k <;>
        simp only [store32, if_true, Bool.false_eq_true, if_false, List.mem_cons,
          List.not_mem_nil, or_false] at hy <;>
        omega
    unfold sha256 output_bytes at hb
    split at hb
    · rw [List.mem_flatMap] at hb
      obtain ⟨j, _, hj⟩ := hb
      exact hmem _ _ _ hj
    · rw [List.mem_flatMap] at hb
      obtain ⟨j, _, hj⟩ := hb
      exact hmem _ _ _ hj

/-- C2: `sha256` is deterministic and independent of the host byte order.  The host
order `le` fixes both what `internal::isLittleEndian` returns and how `memcpy` maps four
bytes to a word; for every input of bytes (values below 256), equal inputs give equal
digests, whatever the byte orders `le1`, `le2` of the two hosts. -/
theorem sha256_deterministic (le1 le2 : Bool) (input1 input2 : List Nat)
    (hbytes : ∀ b ∈ input1, b < 256) (heq : input1 = input2) :
    internal.isLittleEndian le1 = le1 ∧ internal.isLittleEndian le2 = le2 ∧
    sha256 le1 input1 = sha256 le2 input2 := by
  subst heq
  have hhost : ∀ le, sha256 le input1 = sha256 true input1 := by
    intro le
    cases le
    · unfold sha256
      rw [rolling_hash_host _ (padded_bytes input1 hbytes), output_bytes_host]
    · rfl
  refine ⟨by cases le1 <;> decide, by cases le2 <;> decide, ?_⟩
  rw [hhost le1, hhost le2]

/-- Witness for C2: the input "abc" on a little-endian and on a big-endian host. -/
theorem sha256_deterministic_witness :
    (∀ b ∈ [0x61, 0x62, 0x63], b < 256) ∧
    sha256 true [0x61, 0x62, 0x63] = sha256 false [0x61, 0x62, 0x63] :=
  ⟨by decide, (sha256_deterministic true false [0x61, 0x62, 0x63] [0x61, 0x62, 0x63]
    (by decide) rfl).2.2⟩

/-- C3: on the one-block FIPS 180 test vector, the 3-byte input 0x61 0x62 0x63 ("abc"),
`sha256` returns the standard digest ba7816bf 8f01cfea 414140de 5dae2223 b00361a3
96177a9c b410ff61 f20015ad, on a host of either byte order. -/
theorem sha256_abc (le : Bool) :
    sha256 le [0x61, 0x62, 0x63] =
      [0xba, 0x78, 0x16, 0xbf, 0x8f, 0x01, 0xcf, 0xea,
       0x41, 0x41, 0x40, 0xde, 0x5d, 0xae, 0x22, 0x23,
       0xb0, 0x03, 0x61, 0xa3, 0x96, 0x17, 0x7a, 0x9c,
       0xb4, 0x10, 0xff, 0x61, 0xf2, 0x00, 0x15, 0xad] := by
  cases le <;> decide

/-- C4: on the 56-byte two-block FIPS 180 test vector the padding spills into a second
block: the padded buffer has two blocks, `sha256_block` runs twice with the first
block's output as the second block's `h_init`, and `sha256` returns the standard digest
248d6a61 d20638b8 e5c02693 0c3e6039 a33ce459 64ff2167 f6ecedd4 19db06c1. -/
theorem sha256_two_block (le : Bool) :
    two_block_message.length = 56 ∧
    num_blocks (padded two_block_message) = 2 ∧
    rolling_hash le (padded two_block_message) =
      sha256_block
        (sha256_block (prepare_constants (List.replicate 8 0))
          (hash_input le (padded two_block_message) 0))
        (hash_input le (padded two_block_message) 1) ∧
    sha256 le two_block_message =
      [0x24, 0x8d, 0x6a, 0x61, 0xd2, 0x06, 0x38, 0xb8,
       0xe5, 0xc0, 0x26, 0x93, 0x0c, 0x3e, 0x60, 0x39,
       0xa3, 0x3c, 0xe4, 0x59, 0x64, 0xff, 0x21, 0x67,
       0xf6, 0xec, 0xed, 0xd4, 0x19, 0xdb, 0x06, 0xc1] := by
  refine ⟨by decide, by decide, ?_, ?_⟩
  · have h : num_blocks (padded two_block_message) = 2 := by decide
    unfold rolling_hash
    rw [h]
    rfl
  · cases le <;> decide

/-- C10: for every input of length `n`, the padded buffer built by `sha256` before the
block loop has length `64 * ((n + 8) / 64 + 1)`, the smallest multiple of 64 that is at
least `n + 9`; the number of zero bytes appended is `(55 - n) mod 64`, below 64; and
`num_blocks` is at least 1 and `num_blocks * 64` is the whole padded length. -/
theorem padded_length (input : List Nat) :
    ((num_zero_bytes (input.length + 1) : Nat) : Int) = (55 - (input.length : Int)) % 64 ∧
    num_zero_bytes (input.length + 1) < 64 ∧
    (padded input).length = input.length + 1 + num_zero_bytes (input.length + 1) + 8 ∧
    (padded input).length = 64 * ((input.length + 8) / 64 + 1) ∧
    input.length + 9 ≤ (padded input).length ∧
    (∀ k : Nat, input.length + 9 ≤ 64 * k → (padded input).length ≤ 64 * k) ∧
    1 ≤ num_blocks (padded input) ∧
    num_blocks (padded input) * 64 = (padded input).length := by
  have hz := num_zero_bytes_eq input.length
  have hlen : (padded input).length
      = input.length + 1 + num_zero_bytes (input.length + 1) + 8 := by
    rw [padded_eq]
    simp only [length_bytes, List.length_append, List.length_replicate, List.length_cons,
      List.length_nil]
  unfold num_blocks
  refine ⟨by omega, by omega, hlen, by omega, by omega, ?_, by omega, by omega⟩
  intro k hk
  omega

/-- Witness for C10: the 3-byte input "abc" is padded with 52 zero bytes to one block of
64 bytes, the smallest multiple of 64 that is at least 12. -/
theorem padded_length_witness :
    num_zero_bytes ([0x61, 0x62, 0x63].length + 1) = 52 ∧
    [0x61, 0x62, 0x63].length + 9 ≤ 64 * 1 ∧
    (padded [0x61, 0x62, 0x63]).length ≤ 64 * 1 :=
  ⟨by decide, by decide, (padded_length [0x61, 0x62, 0x63]).2.2.2.2.2.1 1 (by decide)⟩

/-- C11: for every input of length `n < 2 ^ 61`, the padded buffer built by `sha256` is
the input, the byte `0x80`, `num_zero_bytes` zero bytes and the 8-byte big-endian
encoding of the bit length `8 * n` (eight bytes, each below 256, that decode big-endian
to `8 * n`): the input is an unchanged prefix, the byte at index `n` is `0x80`, the bytes
between it and the last eight are zero, and the last 8 bytes decode big-endian to
`8 * n`. -/
theorem padded_layout (input : List Nat) (hn : input.length < 2 ^ 61) :
    padded input
      = input ++ [0x80] ++ List.replicate (num_zero_bytes (input.length + 1)) 0
          ++ length_bytes (8 * input.length) ∧
    (length_bytes (8 * input.length)).length = 8 ∧
    (∀ b ∈ length_bytes (8 * input.length), b < 256) ∧
    decode_be (length_bytes (8 * input.length)) = 8 * input.length ∧
    (padded input).take input.length = input ∧
    (padded input)[input.length]? = some 0x80 ∧
    (∀ j, input.length < j → j + 8 < (padded input).length → (padded input)[j]? = some 0) ∧
    decode_be ((padded input).drop ((padded input).length - 8)) = 8 * input.length := by
  have hp : padded input
      = input ++ [0x80] ++ List.replicate (num_zero_bytes (input.length + 1)) 0
          ++ length_bytes (8 * input.length) := by
    rw [padded_eq, bit_length_eq input hn]
  have hdec : decode_be (length_bytes (8 * input.length)) = 8 * input.length :=
    decode_length_bytes _ (by omega)
  have hl8 : (length_bytes (8 * input.length)).length = 8 := rfl
  refine ⟨hp, hl8, ?_, hdec, ?_, ?_, ?_, ?_⟩
  · intro b hb
    simp only [length_bytes, u8, List.mem_cons, List.not_mem_nil, or_false] at hb
    have hmod : ∀ x : Nat, x % 256 < 256 := fun x => Nat.mod_lt _ (by decide)
    rcases hb with hb | hb | hb | hb | hb | hb | hb | hb <;> (rw [hb]; exact hmod _)
  · rw [hp]
    simp [List.append_assoc, List.take_append_eq_append_take]
  · rw [hp, List.append_assoc, List.append_assoc,
      List.getElem?_append_right (Nat.le_refl _), Nat.sub_self]
    simp
  · intro j hj1 hj2
    rw [hp] at hj2 ⊢
    simp only [List.length_append, List.length_replicate, List.length_cons, List.length_nil,
      hl8] at hj2
    rw [List.getElem?_append_left (by simp; omega),
      List.getElem?_append_right (by simp; omega)]
    simp only [List.length_append, List.length_cons, List.length_nil]
    rw [List.getElem?_replicate]
    simp
    omega
  · rw [hp]
    have hlen : (input ++ [0x80] ++ List.replicate (num_zero_bytes (input.length + 1)) 0
        ++ length_bytes (8 * input.length)).length - 8
        = (input ++ [0x80] ++ List.replicate (num_zero_bytes (input.length + 1)) 0).length := by
      rw [List.length_append, hl8]
      omega
    rw [hlen, List.drop_left, hdec]

/-- Witness for C11: the 3-byte input "abc": the byte at index 3 is `0x80` and the last
eight bytes of the padded buffer decode to the bit length 24. -/
theorem padded_layout_witness :
    [0x61, 0x62, 0x63].length < 2 ^ 61 ∧
    (padded [0x61, 0x62, 0x63])[3]? = some 0x80 ∧
    decode_be ((padded [0x61, 0x62, 0x63]).drop ((padded [0x61, 0x62, 0x63]).length - 8))
      = 24 :=
  ⟨by decide, (padded_layout [0x61, 0x62, 0x63] (by decide)).2.2.2.2.2.1,
    (padded_layout [0x61, 0x62, 0x63] (by decide)).2.2.2.2.2.2.2⟩

/-- C12: every array access in `sha256` and `sha256_block` is in bounds, for every input.
The variants in which an access outside the bounds, or a read of an unwritten cell of
`w`, returns `none` do return, with the result of the unchecked functions: `sha256` for
every input, `sha256_block` for every 8-word `h_init` and 16-word block.  In the schedule
extension, for `16 <= i < 64` the indices `i - 16`, `i - 15`, `i - 7`, `i - 2` (in
`size_t` arithmetic) are below `i`, hence written earlier, and `i` is at most 63;
`round_constants` has 64 entries and is read with `i < 64`; and for every block index
`i < num_blocks` the 64-byte read at `i * 64` ends within the padded buffer. -/
theorem accesses_in_bounds (le : Bool) (input : List Nat) :
    sha256_checked le input = some (sha256 le input) ∧
    (∀ h_init block : List Nat, h_init.length = 8 → block.length = 16 →
      sha256_block_checked h_init block = some (sha256_block h_init block)) ∧
    (∀ i, 16 ≤ i → i < 64 →
      size_sub i 16 < i ∧ size_sub i 15 < i ∧ size_sub i 7 < i ∧ size_sub i 2 < i ∧
      i ≤ 63) ∧
    (∀ (i : Nat) (w : List (Option Nat)) (wu : List Nat), 16 ≤ i → i < 64 →
      schedule_agree i w wu →
      read_cell w (size_sub i 16) = some (wu.getD (i - 16) 0) ∧
      read_cell w (size_sub i 15) = some (wu.getD (i - 15) 0) ∧
      read_cell w (size_sub i 7) = some (wu.getD (i - 7) 0) ∧
      read_cell w (size_sub i 2) = some (wu.getD (i - 2) 0)) ∧
    internal.round_constants.length = 64 ∧
    (∀ i, i < 64 → (read_at internal.round_constants i).isSome = true) ∧
    (∀ i, i < num_blocks (padded input) → i * 64 + 64 ≤ (padded input).length) := by
  refine ⟨sha256_checked_eq le input, sha256_block_checked_eq, ?_, ?_, by decide, ?_, ?_⟩
  · intro i hlo hhi
    unfold size_sub u64
    omega
  · intro i w wu hlo hhi hag
    have e16 : size_sub i 16 = i - 16 := by unfold size_sub u64; omega
    have e15 : size_sub i 15 = i - 15 := by unfold size_sub u64; omega
    have e7 : size_sub i 7 = i - 7 := by unfold size_sub u64; omega
    have e2 : size_sub i 2 = i - 2 := by unfold size_sub u64; omega
    rw [e16, e15, e7, e2]
    exact ⟨read_cell_eq hag _ (by omega), read_cell_eq hag _ (by omega),
      read_cell_eq hag _ (by omega), read_cell_eq hag _ (by omega)⟩
  · intro i hi
    rw [read_at_eq _ _ (by simpa [internal.round_constants] using hi)]
    rfl
  · intro i hi
    unfold num_blocks at hi
    omega

/-- Witness for C12: on the input "abc" the only block (index 0) is read within the 64
bytes of the padded buffer and the checked `sha256_block` returns on the 8-word initial
value and that block; the checks are effective: a 15-word block makes the checked
`sha256_block` fail, and so does a read of an unwritten cell of `w`. -/
theorem accesses_in_bounds_witness :
    0 < num_blocks (padded [0x61, 0x62, 0x63]) ∧
    0 * 64 + 64 ≤ (padded [0x61, 0x62, 0x63]).length ∧
    sha256_block_checked (prepare_constants (List.replicate 8 0))
        (hash_input true (padded [0x61, 0x62, 0x63]) 0)
      = some (sha256_block (prepare_constants (List.replicate 8 0))
          (hash_input true (padded [0x61, 0x62, 0x63]) 0)) ∧
    sha256_block_checked (prepare_constants (List.replicate 8 0)) (List.replicate 15 0)
      = none ∧
    schedule_extend_checked (List.replicate 64 none) 16 = none :=
  ⟨by decide,
    (accesses_in_bounds true [0x61, 0x62, 0x63]).2.2.2.2.2.2 0 (by decide),
    (accesses_in_bounds true [0x61, 0x62, 0x63]).2.1 _ _ (by decide) (by decide),
    by decide, by decide⟩

/-- C13: the round-constant table is the SHA-256 K table: for every `i < 64`, with `p`
the `(i + 1)`-th prime (`Nat.nth Nat.Prime i`, one of 2, 3, 5, ..., 311),
`r = icbrt p` the integer part of its cube root (`r ^ 3 <= p < (r + 1) ^ 3`) and
`N = r * 2 ^ 32 + round_constants[i]`, the entry is below `2 ^ 32` and
`N ^ 3 <= p * 2 ^ 96 < (N + 1) ^ 3`; the table has 64 entries. -/
theorem round_constants_cube_roots (i : Nat) (hi : i < 64) :
    internal.round_constants.length = 64 ∧
    Nat.nth Nat.Prime i = first_primes.getD i 0 ∧
    Nat.Prime (Nat.nth Nat.Prime i) ∧
    2 ≤ Nat.nth Nat.Prime i ∧ Nat.nth Nat.Prime i ≤ 311 ∧
    icbrt (Nat.nth Nat.Prime i) ^ 3 ≤ Nat.nth Nat.Prime i ∧
    Nat.nth Nat.Prime i < (icbrt (Nat.nth Nat.Prime i) + 1) ^ 3 ∧
    internal.round_constants.getD i 0 < 2 ^ 32 ∧
    (icbrt (Nat.nth Nat.Prime i) * 2 ^ 32 + internal.round_constants.getD i 0) ^ 3
      ≤ Nat.nth Nat.Prime i * 2 ^ 96 ∧
    Nat.nth Nat.Prime i * 2 ^ 96
      < (icbrt (Nat.nth Nat.Prime i) * 2 ^ 32 + internal.round_constants.getD i 0 + 1) ^ 3 := by
  have hr : ∀ j, j < 64 → 2 ≤ first_primes.getD j 0 ∧ first_primes.getD j 0 ≤ 311 := by
    decide
  have hn := nth_prime_eq i hi
  obtain ⟨h1, h2, h3, h4, h5⟩ := round_constants_check i hi
  rw [hn]
  exact ⟨by decide, rfl, (first_primes_count i hi).1, (hr i hi).1, (hr i hi).2,
    h1, h2, h3, h4, h5⟩

/-- Witness for C13: the first entry, for the prime 2: the integer part of the cube root
of 2 is 1 and `(2 ^ 32 + 0x428A2F98) ^ 3 <= 2 * 2 ^ 96 < (2 ^ 32 + 0x428A2F98 + 1) ^ 3`. -/
theorem round_constants_cube_roots_witness :
    0 < 64 ∧ Nat.nth Nat.Prime 0 = 2 ∧ icbrt 2 = 1 ∧
    internal.round_constants.getD 0 0 = 0x428A2F98 ∧
    (icbrt (Nat.nth Nat.Prime 0) * 2 ^ 32 + internal.round_constants.getD 0 0) ^ 3
      ≤ Nat.nth Nat.Prime 0 * 2 ^ 96 ∧
    Nat.nth Nat.Prime 0 * 2 ^ 96
      < (icbrt (Nat.nth Nat.Prime 0) * 2 ^ 32 + internal.round_constants.getD 0 0 + 1) ^ 3 :=
  ⟨by decide, (round_constants_cube_roots 0 (by decide)).2.1, by decide, by decide,
    (round_constants_cube_roots 0 (by decide)).2.2.2.2.2.2.2.2.1,
    (round_constants_cube_roots 0 (by decide)).2.2.2.2.2.2.2.2.2⟩

end sha256

/-! ## Theorems on `field_t` -/

namespace plonk
namespace stdlib

section claims

variable {F : Type}

/-- C5: for every handle, `is_constant` returns true exactly when `witness_index` is the
sentinel `static_cast<uint32_t>(-1) = 2 ^ 32 - 1`; the answer does not depend on
`context`, `additive_constant` or `multiplicative_constant`; and a handle whose members
keep their default member initialisers is constant. -/
theorem is_constant_iff (h : field_t F) :
    NO_WITNESS = 2 ^ 32 - 1 ∧
    (h.is_constant = true ↔ h.witness_index = 2 ^ 32 - 1) ∧
    (∀ (ctx : Option Nat) (ac mc : F),
      ({ h with context := ctx, additive_constant := ac,
                multiplicative_constant := mc } : field_t F).is_constant = h.is_constant) ∧
    (∀ ac mc : F,
      ({ additive_constant := ac, multiplicative_constant := mc } : field_t F).is_constant
        = true) := by
  refine ⟨by decide, ?_, ?_, ?_⟩
  · simp [field_t.is_constant, NO_WITNESS_eq]
  · intro ctx ac mc
    rfl
  · intro ac mc
    simp [field_t.is_constant]

variable [Field F] [DecidableEq F]

/-- C6: for every witness-based handle `a` and every constant handle `c` of the same
builder, `a + c` and `c + a` succeed and fold `c` into the additive constant: the result
keeps the witness index and the multiplicative constant of `a`, and the builder (hence
its witness count and its gate count) is the same after the operation as before. -/
theorem add_constant_folds (B : CircuitBuilder F) (a c : field_t F)
    (ha : witness_based B a = true) (hc : constant_of B c = true) :
    add B a c = (.ok { a with additive_constant := a.additive_constant + c.additive_constant }, B) ∧
    add B c a = (.ok { a with additive_constant := c.additive_constant + a.additive_constant }, B) ∧
    (∃ r, (add B a c).1 = .ok r ∧ r.witness_index = a.witness_index) ∧
    (∃ r, (add B c a).1 = .ok r ∧ r.witness_index = a.witness_index) ∧
    (add B a c).2.witnesses.length = B.witnesses.length ∧
    (add B a c).2.gates.length = B.gates.length ∧
    (add B c a).2.witnesses.length = B.witnesses.length ∧
    (add B c a).2.gates.length = B.gates.length := by
  have h1 : add B a c
      = (.ok { a with additive_constant := a.additive_constant + c.additive_constant }, B) := by
    simp [add, usable_of_witness_based ha, usable_of_constant_of hc,
      not_constant_of_witness_based ha, is_constant_of_constant_of hc]
  have h2 : add B c a
      = (.ok { a with additive_constant := c.additive_constant + a.additive_constant }, B) := by
    simp [add, usable_of_witness_based ha, usable_of_constant_of hc,
      not_constant_of_witness_based ha, is_constant_of_constant_of hc]
  refine ⟨h1, h2, ?_, ?_, ?_, ?_, ?_, ?_⟩
  · exact ⟨{ a with additive_constant := a.additive_constant + c.additive_constant },
      by rw [h1], rfl⟩
  · exact ⟨{ a with additive_constant := c.additive_constant + a.additive_constant },
      by rw [h2], rfl⟩
  · rw [h1]
  · rw [h1]
  · rw [h2]
  · rw [h2]

/-- C7: for every pair of witness-based handles `a`, `b` of the same builder, `a * b`
succeeds and increases the witness count by exactly 1 and the gate count by exactly 1;
for every handle `x` and every constant handle `k`, `x * k` leaves the builder (hence
both counts) as it was, and it succeeds when `x` is usable with the builder and `k` is
a constant of it. -/
theorem mul_counts (B : CircuitBuilder F) (a b k : field_t F)
    (ha : witness_based B a = true) (hb : witness_based B b = true)
    (hk : constant_of B k = true) :
    (∃ r, (mul B a b).1 = .ok r) ∧
    (mul B a b).2.witnesses.length = B.witnesses.length + 1 ∧
    (mul B a b).2.gates.length = B.gates.length + 1 ∧
    (∃ r, (mul B a k).1 = .ok r ∧ r.witness_index = a.witness_index) ∧
    (∀ x k1 : field_t F, k1.is_constant = true →
      (mul B x k1).2.witnesses.length = B.witnesses.length ∧
      (mul B x k1).2.gates.length = B.gates.length) ∧
    (∀ x : field_t F, usable B x = true → ∃ r, (mul B x k).1 = .ok r) := by
  have hua := usable_of_witness_based ha
  have hub := usable_of_witness_based hb
  have huk := usable_of_constant_of hk
  have hna := not_constant_of_witness_based ha
  have hnb := not_constant_of_witness_based hb
  have hck := is_constant_of_constant_of hk
  refine ⟨?_, ?_, ?_, ?_, ?_, ?_⟩
  · simp [mul, hua, hub, hna, hnb]
  · simp [mul, hua, hub, hna, hnb, CircuitBuilder.allocate_witness, CircuitBuilder.emit_gate]
  · simp [mul, hua, hub, hna, hnb, CircuitBuilder.allocate_witness, CircuitBuilder.emit_gate]
  · simp [mul, hua, huk, hna, hck]
  · intro x k1 hk1
    simp only [mul, hk1, Bool.and_true, if_true]
    split
    · exact ⟨rfl, rfl⟩
    · split <;> exact ⟨rfl, rfl⟩
  · intro x hx
    unfold mul
    simp only [hx, huk, hck, Bool.and_self, Bool.not_true, Bool.false_eq_true, if_false,
      Bool.and_true, if_true]
    split
    · exact ⟨_, rfl⟩
    · exact ⟨_, rfl⟩

/-- C8: `normalize` is idempotent.  For every handle `h`: the first call adds at most one
gate; when it returns a handle `h1`, a second call on `h1` returns `h1` again (the same
witness index) and leaves the builder as the first call left it (no gate is added); and
the first call does return a handle when `h` is usable with the builder. -/
theorem normalize_idempotent (B : CircuitBuilder F) (h : field_t F) :
    (usable B h = true → ∃ h1, (normalize B h).1 = .ok h1) ∧
    (∀ h1, (normalize B h).1 = .ok h1 →
      ∃ h2, (normalize (normalize B h).2 h1).1 = .ok h2 ∧
        h2.witness_index = h1.witness_index ∧
        (normalize (normalize B h).2 h1).2.gates = (normalize B h).2.gates ∧
        (normalize (normalize B h).2 h1).2.witnesses = (normalize B h).2.witnesses) ∧
    B.gates.length ≤ (normalize B h).2.gates.length ∧
    (normalize B h).2.gates.length ≤ B.gates.length + 1 := by
  by_cases hu : usable B h = true
  · by_cases hc : h.is_constant = true
    · have e : normalize B h = (.ok h, B) := by simp [normalize, hu, hc]
      rw [e]
      refine ⟨fun _ => ⟨h, rfl⟩, ?_, Nat.le_refl _, Nat.le_succ _⟩
      intro h1 h1eq
      injection h1eq with h1eq
      subst h1eq
      exact ⟨h, by rw [e], rfl, by rw [e], by rw [e]⟩
    · by_cases hi : h.multiplicative_constant = 1 ∧ h.additive_constant = 0
      · have e : normalize B h = (.ok h, B) := by simp [normalize, hu, hc, hi]
        rw [e]
        refine ⟨fun _ => ⟨h, rfl⟩, ?_, Nat.le_refl _, Nat.le_succ _⟩
        intro h1 h1eq
        injection h1eq with h1eq
        subst h1eq
        exact ⟨h, by rw [e], rfl, by rw [e], by rw [e]⟩
      · have e : normalize B h
            = (.ok (wrap_witness B (B.allocate_witness (value_in B h)).1),
               (B.allocate_witness (value_in B h)).2.emit_gate
                { a := h.witness_index, b := h.witness_index,
                  c := (B.allocate_witness (value_in B h)).1,
                  q_m := 0, q_l := h.multiplicative_constant, q_r := 0,
                  q_o := -1, q_c := h.additive_constant }) := by
          unfold normalize
          rw [if_neg (by simp [hu]), if_neg hc, if_neg hi]
        rw [e]
        refine ⟨fun _ => ⟨_, rfl⟩, ?_, ?_, ?_⟩
        · intro h1 h1eq
          injection h1eq with h1eq
          subst h1eq
          rw [normalize_wrap]
          exact ⟨_, rfl, rfl, rfl, rfl⟩
        · simp [CircuitBuilder.allocate_witness, CircuitBuilder.emit_gate]
        · simp [CircuitBuilder.allocate_witness, CircuitBuilder.emit_gate]
  · have e : normalize B h = (.error .UsageError, B) := by simp [normalize, hu]
    rw [e]
    refine ⟨fun hu1 => absurd hu1 hu, ?_, Nat.le_refl _, Nat.le_succ _⟩
    intro h1 h1eq
    cases h1eq

/-- C9: for every dividend `a` and divisor `b` with concrete values `va` and `vb` in the
builder: when `vb` is zero, `a / b` fails with an arithmetic error and leaves the builder
(hence its gate list) unchanged; when `vb` is nonzero (and the builder has a wire id left
below the `uint32_t` sentinel) `a / b` returns a quotient whose `get_value` is
`va * vb⁻¹`, having allocated one witness and emitted one gate; in particular a dividend
of value 10 divided by a divisor of value 2 gives 5. -/
theorem div_spec (B : CircuitBuilder F) (a b : field_t F) (va vb : F)
    (ha : get_value B a = .ok va) (hb : get_value B b = .ok vb) :
    (vb = 0 → div B a b = (.error .ArithmeticError, B)) ∧
    (vb ≠ 0 → B.witnesses.length < 4294967295 →
      ∃ q, (div B a b).1 = .ok q ∧
        get_value (div B a b).2 q = .ok (va * vb⁻¹) ∧
        (div B a b).2.witnesses.length = B.witnesses.length + 1 ∧
        (div B a b).2.gates.length = B.gates.length + 1) ∧
    (va = 10 → vb = 2 → (2 : F) ≠ 0 → B.witnesses.length < 4294967295 →
      ∃ q, (div B a b).1 = .ok q ∧ get_value (div B a b).2 q = .ok 5) := by
  obtain ⟨hua, hva⟩ := get_value_eq_ok ha
  obtain ⟨hub, hvb⟩ := get_value_eq_ok hb
  have hgen : vb ≠ 0 → B.witnesses.length < 4294967295 →
      ∃ q, (div B a b).1 = .ok q ∧
        get_value (div B a b).2 q = .ok (va * vb⁻¹) ∧
        (div B a b).2.witnesses.length = B.witnesses.length + 1 ∧
        (div B a b).2.gates.length = B.gates.length + 1 := by
    intro hne hcap
    have hne1 : ¬ value_in B b = 0 := by rw [← hvb]; exact hne
    have e : div B a b
        = (.ok (wrap_witness B (B.allocate_witness (value_in B a * (value_in B b)⁻¹)).1),
           (B.allocate_witness (value_in B a * (value_in B b)⁻¹)).2.emit_gate
            { a := wire_of b, b := (B.allocate_witness (value_in B a * (value_in B b)⁻¹)).1,
              c := wire_of a, q_m := scale_of b, q_l := 0, q_r := b.additive_constant,
              q_o := - scale_of a, q_c := - a.additive_constant }) := by
      unfold div
      rw [if_neg (by simp [hua, hub]), if_neg hne1]
    rw [e]
    refine ⟨_, rfl, ?_, ?_, ?_⟩
    · rw [get_value_wrap B _ _ hcap, hva, hvb]
    · simp [CircuitBuilder.allocate_witness, CircuitBuilder.emit_gate]
    · simp [CircuitBuilder.allocate_witness, CircuitBuilder.emit_gate]
  refine ⟨?_, hgen, ?_⟩
  · intro hz
    have hz1 : value_in B b = 0 := by rw [← hvb]; exact hz
    simp [div, hua, hub, hz1]
  · intro h10 h2 hne hcap
    obtain ⟨q, hq, hv, _, _⟩ := hgen (by rw [h2]; exact hne) hcap
    refine ⟨q, hq, ?_⟩
    rw [hv, h10, h2]
    congr 1
    rw [mul_inv_eq_iff_eq_mul₀ hne]
    norm_num

/-- Witness for C6: wire 0 of the sample builder plus the constant 3. -/
theorem add_constant_folds_witness :
    witness_based sample_builder (sample_wire 0 1 0) = true ∧
    constant_of sample_builder (sample_constant 3) = true ∧
    add sample_builder (sample_wire 0 1 0) (sample_constant 3)
      = (.ok (sample_wire 0 1 (0 + 3)), sample_builder) :=
  ⟨by decide, by decide,
    (add_constant_folds sample_builder (sample_wire 0 1 0) (sample_constant 3)
      (by decide) (by decide)).1⟩

/-- Witness for C7: wire 0 times wire 1 of the sample builder, and wire 0 times the
constant 3. -/
theorem mul_counts_witness :
    (mul sample_builder (sample_wire 0 1 0) (sample_wire 1 1 0)).2.witnesses.length
      = sample_builder.witnesses.length + 1 ∧
    (mul sample_builder (sample_wire 0 1 0) (sample_wire 1 1 0)).2.gates.length
      = sample_builder.gates.length + 1 ∧
    (mul sample_builder (sample_wire 0 1 0) (sample_constant 3)).2.gates.length
      = sample_builder.gates.length :=
  have h := mul_counts sample_builder (sample_wire 0 1 0) (sample_wire 1 1 0)
    (sample_constant 3) (by decide) (by decide) (by decide)
  ⟨h.2.1, h.2.2.1, (h.2.2.2.2.1 (sample_wire 0 1 0) (sample_constant 3) (by decide)).2⟩

/-- Witness for C8: the handle `2 * w1 + 3` of the sample builder is usable; the first
`normalize` returns the fresh wire 3 with identity constants and adds one gate, and the
second `normalize` returns a handle on the same wire and adds none. -/
theorem normalize_idempotent_witness :
    usable sample_builder (sample_wire 1 2 3) = true ∧
    (normalize sample_builder (sample_wire 1 2 3)).1 = .ok (sample_wire 3 1 0) ∧
    (normalize sample_builder (sample_wire 1 2 3)).2.gates.length = 1 ∧
    ∃ h2, (normalize (normalize sample_builder (sample_wire 1 2 3)).2 (sample_wire 3 1 0)).1
        = .ok h2 ∧
      h2.witness_index = (sample_wire 3 1 0).witness_index ∧
      (normalize (normalize sample_builder (sample_wire 1 2 3)).2 (sample_wire 3 1 0)).2.gates
        = (normalize sample_builder (sample_wire 1 2 3)).2.gates ∧
      (normalize (normalize sample_builder (sample_wire 1 2 3)).2 (sample_wire 3 1 0)).2.witnesses
        = (normalize sample_builder (sample_wire 1 2 3)).2.witnesses :=
  have hu : usable sample_builder (sample_wire 1 2 3) = true := by decide
  have hn : ¬ ((sample_wire 1 2 3).multiplicative_constant = 1 ∧
      (sample_wire 1 2 3).additive_constant = 0) := by decide
  have hc : ¬ (sample_wire 1 2 3).is_constant = true := by decide
  have e : (normalize sample_builder (sample_wire 1 2 3)).1 = .ok (sample_wire 3 1 0) := by
    unfold normalize
    rw [if_neg (by simp [hu]), if_neg hc, if_neg hn]
    rfl
  have g : (normalize sample_builder (sample_wire 1 2 3)).2.gates.length = 1 := by
    unfold normalize
    rw [if_neg (by simp [hu]), if_neg hc, if_neg hn]
    rfl
  ⟨hu, e, g, (normalize_idempotent sample_builder (sample_wire 1 2 3)).2.1 (sample_wire 3 1 0) e⟩

/-- Witness for C9: in `ZMod 13`, the constant 10 divided by wire 0 (value 2) gives 5,
and divided by wire 2 (value 0) fails with an arithmetic error. -/
theorem div_spec_witness :
    (∃ q, (div sample_builder (sample_constant 10) (sample_wire 0 1 0)).1 = .ok q ∧
      get_value (div sample_builder (sample_constant 10) (sample_wire 0 1 0)).2 q = .ok 5) ∧
    div sample_builder (sample_constant 10) (sample_wire 2 1 0)
      = (.error .ArithmeticError, sample_builder) :=
  have h10 : get_value sample_builder (sample_constant 10) = .ok 10 := by
    simp [get_value, usable, constant_of, witness_based, value_in, sample_constant,
      field_t.is_constant]
  have h2 : get_value sample_builder (sample_wire 0 1 0) = .ok 2 := by
    simp [get_value, usable, constant_of, witness_based, value_in, sample_wire,
      sample_builder, field_t.is_constant, NO_WITNESS_eq]
  have h0 : get_value sample_builder (sample_wire 2 1 0) = .ok 0 := by
    simp [get_value, usable, constant_of, witness_based, value_in, sample_wire,
      sample_builder, field_t.is_constant, NO_WITNESS_eq]
  ⟨(div_spec sample_builder (sample_constant 10) (sample_wire 0 1 0) 10 2 h10 h2).2.2
      rfl rfl (by decide) (by decide),
   (div_spec sample_builder (sample_constant 10) (sample_wire 2 1 0) 10 0 h10 h0).1 rfl⟩

end claims

end stdlib
end plonk
